import Mathlib

/-!
Shallow embedding of the apsis run-lifecycle engine (src/python/apsis), with
theorems checking the natural-language specification against the code.

Python dictionaries are embedded as association lists with `dict.update`
semantics (`updateKey` removes any earlier binding before appending the new
one), machine integers and timestamps as `Int`, and fallible code as `Except`.
-/

namespace Apsis

/-- Replace the binding for key `k` in an association list by `v`
(Python `d[k] = v`). -/
def updateKey {α : Type} (m : List (String × α)) (k : String) (v : α) :
    List (String × α) :=
  (m.filter (fun p => p.1 ≠ k)) ++ [(k, v)]

/-- Apply a sequence of key updates (Python `d.update({...})`). -/
def updateKeys {α : Type} (m : List (String × α)) :
    List (String × α) → List (String × α)
  | [] => m
  | (k, v) :: rest => updateKeys (updateKey m k v) rest

/-- Key membership (Python `k in d`). -/
def hasKey {α : Type} (m : List (String × α)) (k : String) : Bool :=
  m.any (fun p => p.1 == k)

/-- Value lookup (Python `d[k]`, `None` for a missing key). -/
def getKey {α : Type} (m : List (String × α)) (k : String) : Option α :=
  (m.find? (fun p => p.1 == k)).map (fun p => p.2)

/-! ## lib/api.py -/

/-- Embedding of `to_bool` (src/python/apsis/lib/api.py): maps the four
truthy strings to `True`, the four falsy strings to `False`, and raises
`ValueError` otherwise. -/
def to_bool (string : String) : Except String Bool :=
  if string = "True" ∨ string = "true" ∨ string = "T" ∨ string = "t" then
    .ok true
  else if string = "False" ∨ string = "false" ∨ string = "F" ∨ string = "f" then
    .ok false
  else
    .error ("unknown bool: " ++ string)

/-! ## service/main.py : QueueHandler -/

/-- An asyncio queue as `emit` sees it: its contents plus its capacity
(`maxsize = 0` means unbounded, following asyncio). -/
structure AQueue where
  maxsize : Nat
  items : List String
deriving DecidableEq

/-- Whether `put_nowait` on this queue would raise `QueueFull`. -/
def AQueue.isFull (q : AQueue) : Bool :=
  q.maxsize ≠ 0 && q.maxsize ≤ q.items.length

/-- Embedding of `asyncio.Queue.put_nowait`: enqueue, or raise `QueueFull`. -/
def AQueue.put_nowait (q : AQueue) (x : String) : Except Unit AQueue :=
  if q.isFull then .error () else .ok { q with items := q.items ++ [x] }

/-- Embedding of `QueueHandler.emit` (src/python/apsis/service/main.py):
format the record, then `put_nowait` the formatted data into every registered
queue, swallowing `QueueFull` per queue. `fmt` stands for
`self.__formatter.format`. -/
def QueueHandler.emit (fmt : String → String) (queues : List AQueue)
    (record : String) : List AQueue :=
  let data := fmt record
  queues.map (fun q =>
    match q.put_nowait data with
    | .ok q2 => q2
    | .error _ => q)

/-! ## program.py -/

/-- Error raised when a program could not be launched (modelled from the
spec: `ProgramError` lives in apsis/execute.py, not under src/; it carries
a message). -/
structure ProgramError where
  message : String
deriving DecidableEq

/-- Error raised when the child ran and exited nonzero (modelled from the
spec: `ProgramFailure` lives in apsis/execute.py, not under src/; it carries
a message). -/
structure ProgramFailure where
  message : String
deriving DecidableEq

/-- Embedding of `ProcessProgram.__init__` (src/python/apsis/program.py):
the argv tuple and the executable, which is `argv[0]`. -/
structure ProcessProgram where
  argv : List String
  executable : String
deriving DecidableEq

/-- Constructor `ProcessProgram(argv)`: stringified argv with
`executable = Path(argv[0])` (evaluated only on nonempty argv, as in the
source where `argv[0]` is demanded). -/
def ProcessProgram.ofArgv (argv : List String) : ProcessProgram :=
  { argv := argv, executable := argv.headD "" }

/-- Embedding of `ShellCommandProgram.__init__`: a `ProcessProgram` over
`["/bin/bash", "-c", command]`. -/
def ShellCommandProgram (command : String) : ProcessProgram :=
  ProcessProgram.ofArgv ["/bin/bash", "-c", command]

/-- The spec's description of `ShellCommand`, written from the spec's words
for the refinement claim C5: "a single shell string, implemented as a
`Process` with `["/bin/sh","-c",cmd]`". -/
def shellCommandSpec (command : String) : ProcessProgram :=
  ProcessProgram.ofArgv ["/bin/sh", "-c", command]

/-- The run as program.py sees it: its `meta` mapping and its captured
`output` (the stdout blob set by `wait`). -/
structure ProgRun where
  meta : List (String × String)
  output : Option String
deriving DecidableEq

/-- Observable configuration of the spawned child process, as passed to
`asyncio.create_subprocess_exec` in `ProcessProgram.start`. -/
structure SpawnConfig where
  argv : List String
  executable : String
  stdin : String
  stdoutIsPipe : Bool
  stderrToStdout : Bool
deriving DecidableEq

/-- Host environment observed by `ProcessProgram.start`: `socket.gethostname()`,
`getpass.getuser()` and `now()`. -/
structure HostEnv where
  hostname : String
  username : String
  startTime : String
deriving DecidableEq

/-- Embedding of `ProcessProgram.start` (src/python/apsis/program.py:43-66).
It first updates `run.meta` with hostname, username and start_time, then
spawns the child with stdin `/dev/null`, stdout piped and stderr merged into
stdout; `OSError` during spawn (`spawnOk = false`) becomes `ProgramError`.
The returned run carries the meta mutation, which happens before the spawn. -/
def ProcessProgram.start (p : ProcessProgram) (env : HostEnv) (run : ProgRun)
    (spawnOk : Bool) : ProgRun × Except ProgramError SpawnConfig :=
  let meta2 := updateKeys run.meta
    [("hostname", env.hostname), ("username", env.username),
     ("start_time", env.startTime)]
  ({ run with meta := meta2 },
    if spawnOk then
      .ok { argv := p.argv, executable := p.executable,
            stdin := "/dev/null", stdoutIsPipe := true,
            stderrToStdout := true }
    else
      .error ⟨"spawn failed"⟩)

/-- Embedding of `ProcessProgram.wait` (src/python/apsis/program.py:69-86).
Given the child's pid, return code, captured stdout and end time, it updates
`run.meta` with pid, return_code and end_time, stores the stdout blob as the
run's output, and returns normally iff the return code is zero, raising
`ProgramFailure` otherwise. -/
def ProcessProgram.wait (run : ProgRun) (pid : Int) (returnCode : Int)
    (stdout : String) (endTime : String) :
    ProgRun × Except ProgramFailure Unit :=
  let meta2 := updateKeys run.meta
    [("pid", toString pid), ("return_code", toString returnCode),
     ("end_time", endTime)]
  ({ run with meta := meta2, output := some stdout },
    if returnCode = 0 then .ok ()
    else .error ⟨"return code = " ++ toString returnCode⟩)

/-! ## apsis.py : the lifecycle engine -/

/-- Run states (spec section 3; the `Run.STATE` enumeration of runs.py). -/
inductive RunState
  | new
  | scheduled
  | running
  | success
  | failure
  | error
deriving DecidableEq

/-- Name under which a state's entry time is recorded in `run.times`. -/
def stateName : RunState → String
  | .new => "new"
  | .scheduled => "schedule"
  | .running => "running"
  | .success => "success"
  | .failure => "failure"
  | .error => "error"

/-- An instance: a job id plus concrete argument bindings (spec section 3). -/
structure Inst where
  job_id : String
  args : List (String × String)
deriving DecidableEq

/-- A run, as the engine sees it.  `rerun` is the id of the original run of
this run's rerun family (`none` before `Apsis.rerun` assigns one).  Times are
timestamps as integers. -/
structure Run where
  run_id : Nat
  inst : Inst
  rerun : Option Nat
  state : RunState
  times : List (String × Int)
  meta : List (String × String)
  message : Option String
deriving DecidableEq

/-- Modelled from the spec: runs.py is not under src/.  The id of a run's
rerun family — its `rerun` field, "or self if this is the original"
(spec section 3). -/
def Run.familyId (r : Run) : Nat := r.rerun.getD r.run_id

/-- A job's rerun policy `{count, delay, max_delay}` (spec section 3). -/
structure RerunPolicy where
  count : Nat
  delay : Int
  max_delay : Int
deriving DecidableEq

/-- A job definition, restricted to the fields the embedded engine code
reads: its id, its ordered parameters and its rerun policy. -/
structure Job where
  job_id : String
  params : List String
  reruns : RerunPolicy
deriving DecidableEq

/-- Modelled from the spec: `Run._transition` lives in runs.py, not under
src/.  Applies `(state, fields)` to the run, "merging `meta` and `times`,
overwriting `message`, replacing `state`" (spec section 4.5), and recording
the time of the state change in `times` (spec section 3). -/
def Run.applyTransition (r : Run) (time : Int) (state : RunState)
    (message : Option String) (meta : List (String × String))
    (times : List (String × Int)) : Run :=
  let times2 := updateKey (updateKeys r.times times) (stateName state) time
  { r with
    state := state
    message := match message with
      | some m => some m
      | none => r.message
    meta := updateKeys r.meta meta
    times := times2 }

/-- The engine state toward its collaborators: the persisted run snapshots
(runs store), the appended outputs, the timed queue of scheduled runs, the
`running_tasks` table (keyed by run id), and the run ids for which a
`failure` transition triggered rerun evaluation. -/
structure Engine where
  runs_db : List (Nat × Run)
  outputs_db : List (Nat × String × String)
  scheduled : List (Int × Nat)
  running_tasks : List Nat
  rerun_evals : List Nat
deriving DecidableEq

/-- Embedding of `Apsis._transition` (src/python/apsis/apsis.py:188-208):
transition the run at `now()`, persist each output, persist the new run
snapshot, and trigger rerun evaluation when the new state is `failure`. -/
def Apsis.transition (e : Engine) (r : Run) (time : Int) (state : RunState)
    (message : Option String) (meta : List (String × String))
    (times : List (String × Int)) (outputs : List (String × String)) :
    Engine × Run :=
  let r2 := r.applyTransition time state message meta times
  let e2 := { e with
    outputs_db := e.outputs_db ++
      outputs.map (fun p => (r.run_id, p.1, p.2))
    runs_db := e.runs_db.filter (fun p => p.1 ≠ r.run_id) ++ [(r.run_id, r2)]
    rerun_evals :=
      if state = RunState.failure then e.rerun_evals ++ [r.run_id]
      else e.rerun_evals }
  (e2, r2)

/-- Embedding of `Apsis.cancel` (src/python/apsis/apsis.py:229-236):
unschedule the run from the timed queue (ScheduledRuns.unschedule is
modelled from the spec: "remove; fails silently if absent", spec
section 4.3) and transition it to `error` with message `"cancelled"`.
The source performs no precondition check on the run's state. -/
def Apsis.cancel (e : Engine) (r : Run) (time : Int) : Engine × Run :=
  let e2 := { e with scheduled := e.scheduled.filter (fun p => p.2 ≠ r.run_id) }
  Apsis.transition e2 r time RunState.error (some "cancelled") [] [] []

/-- Outcome observed by the completion callback in `Apsis.__wait`: the
supervision future was cancelled, or raised `ProgramFailure` or
`ProgramError`, or resolved with a success result. -/
inductive WaitOutcome
  | cancelled
  | failed (message : String) (meta : List (String × String))
      (times : List (String × Int)) (outputs : List (String × String))
  | errored (message : String) (meta : List (String × String))
      (times : List (String × Int)) (outputs : List (String × String))
  | succeeded (meta : List (String × String))
      (times : List (String × Int)) (outputs : List (String × String))

/-- Embedding of the `done` callback in `Apsis.__wait`
(src/python/apsis/apsis.py:109-152).  On cancellation it logs and returns at
once — before the `del self.__running_tasks[run.run_id]` statement, which is
therefore skipped.  The other outcomes transition to `failure`, `error` or
`success` respectively and then delete the run's `running_tasks` entry. -/
def doneCallback (e : Engine) (r : Run) (time : Int) (outcome : WaitOutcome) :
    Engine × Run :=
  match outcome with
  | .cancelled => (e, r)
  | .failed msg meta times outputs =>
      let (e2, r2) :=
        Apsis.transition e r time RunState.failure (some msg) meta times outputs
      ({ e2 with running_tasks := e2.running_tasks.filter (· ≠ r.run_id) }, r2)
  | .errored msg meta times outputs =>
      let (e2, r2) :=
        Apsis.transition e r time RunState.error (some msg) meta times outputs
      ({ e2 with running_tasks := e2.running_tasks.filter (· ≠ r.run_id) }, r2)
  | .succeeded meta times outputs =>
      let (e2, r2) :=
        Apsis.transition e r time RunState.success none meta times outputs
      ({ e2 with running_tasks := e2.running_tasks.filter (· ≠ r.run_id) }, r2)

/-- Whether the `max_delay` condition of `Apsis.__rerun` holds: the original
run has a schedule time and more than `max_delay` has elapsed since it. -/
def maxDelayExceeded (main_run : Run) (job : Job) (time : Int) : Bool :=
  match getKey main_run.times "schedule" with
  | some sched => decide (time - sched > job.reruns.max_delay)
  | none => false

/-- Outcome of one evaluation of `Apsis.__rerun`: whether the
"retry max delay exceeded" message was logged, and the time at which a rerun
is scheduled, if one is. -/
structure RerunOutcome where
  logged_max_delay : Bool
  rerun_at : Option Int
deriving DecidableEq

/-- Embedding of `Apsis.__rerun` (src/python/apsis/apsis.py:155-183).
`runs` is the result of `self.runs.query(rerun=run.rerun)` and `rerunId` the
failed run's family id.  If the job's rerun count is zero, or the family
already has more than `count` members, no rerun happens.  Otherwise the
single original run is extracted (a `ValueError` if not exactly one matches);
when the max delay is exceeded the source only *logs* — it does not return —
and then unconditionally schedules a rerun at `time + delay`. -/
def rerunDecision (job : Job) (runs : List Run) (rerunId : Nat)
    (time : Int) : Except String RerunOutcome :=
  if job.reruns.count = 0 then .ok ⟨false, none⟩
  else if runs.length > job.reruns.count then .ok ⟨false, none⟩
  else
    match runs.filter (fun r => r.run_id = rerunId) with
    | [main_run] =>
        .ok ⟨maxDelayExceeded main_run job time, some (time + job.reruns.delay)⟩
    | _ => .error "ValueError: expected exactly one original run"

/-- Embedding of `Apsis.rerun` (src/python/apsis/apsis.py:248-261): a new
`Run` with the same `inst`, fresh id, and `rerun` set to the rerun id of the
run being rerun (`run.run_id` if its `rerun` is `None`, else `run.rerun`). -/
def engineRerun (run : Run) (freshId : Nat) : Run :=
  let rr := match run.rerun with
    | none => run.run_id
    | some x => x
  { run_id := freshId, inst := run.inst, rerun := some rr,
    state := RunState.new, times := [], meta := [], message := none }

/-- Modelled from the spec: `Runs.query(rerun=v)` lives in runs.py, not
under src/.  It selects the rerun family of `v`: the runs whose family id is
`v` (the original belongs to its own family, spec sections 3 and 4.1). -/
def queryRerun (runs : List Run) (v : Nat) : List Run :=
  runs.filter (fun r => r.familyId = v)

/-- One failure event in a rerun family's history: the run with id
`failedId` enters `failure` at `time`, triggering `Apsis.__rerun`, which may
append a rerun with fresh id `freshId` (created by `Apsis.rerun` and added
by `Apsis.schedule`). -/
def failStep (job : Job) (runs : List Run) (failedId : Nat) (time : Int)
    (freshId : Nat) : List Run :=
  match runs.find? (fun r => r.run_id = failedId) with
  | none => runs
  | some run =>
      match rerunDecision job (queryRerun runs run.familyId) run.familyId
          time with
      | .ok outcome =>
          match outcome.rerun_at with
          | some _ => runs ++ [engineRerun run freshId]
          | none => runs
      | .error _ => runs

/-- The runs existing after a sequence of failure events, each given as
`(failedId, time, freshId)`, starting from `init`. -/
def runTrace (job : Job) (init : List Run) :
    List (Nat × Int × Nat) → List Run
  | [] => init
  | (fid, t, nid) :: rest => runTrace job (failStep job init fid t nid) rest

/-! ## cond/base.py -/

/-- Modelled from the spec: `template_expand` (apsis.runs, not under src/).
Template expansion is literal \x7bname\x7d-substitution with no escaping
(spec sections 4.2 and 9). -/
def template_expand (tmpl : String) (args : List (String × String)) : String :=
  args.foldl (fun s kv => s.replace ("\x7b" ++ kv.1 ++ "\x7d") kv.2) tmpl

/-- The per-parameter lookup `get` inside `_bind`
(src/python/apsis/cond/base.py:55-64): `obj_args` take precedence and are
template-expanded with `bind_args`; `inst_args` are not expanded; a
parameter found in neither mapping raises `LookupError`. -/
def bindGet (job : Job) (obj_args inst_args bind_args : List (String × String))
    (name : String) : Except String String :=
  match getKey obj_args name with
  | some v => .ok (template_expand v bind_args)
  | none =>
      match getKey inst_args name with
      | some v => .ok v
      | none =>
          .error ("no value for param " ++ name ++ " of job " ++ job.job_id)

/-- The dict comprehension `{ n: get(n) for n in job.params }` of `_bind`,
evaluated left to right; an exception aborts the whole comprehension. -/
def bindParams (job : Job)
    (obj_args inst_args bind_args : List (String × String)) :
    List String → Except String (List (String × String))
  | [] => .ok []
  | n :: rest => do
      let v ← bindGet job obj_args inst_args bind_args n
      let m ← bindParams job obj_args inst_args bind_args rest
      .ok ((n, v) :: m)

/-- Embedding of `_bind` (src/python/apsis/cond/base.py:47-66): binds
`obj_args` and `inst_args` to `job.params` by name. -/
def _bind (job : Job)
    (obj_args inst_args bind_args : List (String × String)) :
    Except String (List (String × String)) :=
  bindParams job obj_args inst_args bind_args job.params

/-- Family invariant for C4: the family never exceeds `count + 1` runs, and
every member carries the family id `x`, the original instance, and — unless
it is the original itself — `rerun = some x`. -/
def FamInv (job : Job) (x : Nat) (inst0 : Inst) (runs : List Run) : Prop :=
  runs.length ≤ job.reruns.count + 1 ∧
  ∀ r ∈ runs, r.familyId = x ∧ r.inst = inst0 ∧
    (r.run_id ≠ x → r.rerun = some x)

/-! ## Helper lemmas about the dictionary embedding -/

theorem hasKey_append {α : Type} (m n : List (String × α)) (k : String) :
    hasKey (m ++ n) k = (hasKey m k || hasKey n k) := by
  simp [hasKey, List.any_append]

theorem mem_updateKey {α : Type} (m : List (String × α)) (k k2 : String)
    (v v2 : α) :
    (k2, v2) ∈ updateKey m k v ↔
      ((k2, v2) ∈ m ∧ ¬ k2 = k) ∨ (k2 = k ∧ v2 = v) := by
  simp [updateKey, List.mem_filter]

theorem hasKey_iff {α : Type} (m : List (String × α)) (k : String) :
    hasKey m k = true ↔ ∃ v, (k, v) ∈ m := by
  simp [hasKey]

theorem hasKey_updateKey {α : Type} (m : List (String × α)) (k k2 : String)
    (v : α) : hasKey (updateKey m k v) k2 = (k2 == k || hasKey m k2) := by
  rw [Bool.eq_iff_iff]
  simp [hasKey_iff, mem_updateKey, beq_iff_eq]
  by_cases h : k2 = k
  · subst h; simp
  · simp [h]

/-! ## Theorems for C8 and C10 -/

/-- Claim C8: `to_bool` is total only on eight strings: it returns `True`
exactly on `"True"/"true"/"T"/"t"`, `False` exactly on
`"False"/"false"/"F"/"f"`, and raises `ValueError` on every other string. -/
theorem to_bool_total_on_eight_strings (s : String) :
    (to_bool s = .ok true ↔ (s = "True" ∨ s = "true" ∨ s = "T" ∨ s = "t")) ∧
    (to_bool s = .ok false ↔
      (s = "False" ∨ s = "false" ∨ s = "F" ∨ s = "f")) ∧
    (to_bool s = .error ("unknown bool: " ++ s) ↔
      (¬(s = "True" ∨ s = "true" ∨ s = "T" ∨ s = "t") ∧
       ¬(s = "False" ∨ s = "false" ∨ s = "F" ∨ s = "f"))) := by
  unfold to_bool
  split
  · rename_i h
    refine ⟨by simp [h], ?_, by simp [h]⟩
    constructor
    · intro hfalse
      simp at hfalse
    · intro hf
      rcases h with h | h | h | h <;> subst h <;>
        rcases hf with hf | hf | hf | hf <;> simp_all
  · split
    · rename_i hnot h
      refine ⟨by simpa using hnot, by simp [h], by simp [h]⟩
    · rename_i hnot1 hnot2
      refine ⟨by simpa using hnot1, by simpa using hnot2, by simp [hnot1, hnot2]⟩

/-- Claim C10: `QueueHandler.emit` delivers the formatted record to every
registered queue and never raises: a full queue silently drops the record
while every other queue still receives it appended. -/
theorem emit_delivers_to_all_nonfull_queues (fmt : String → String)
    (queues : List AQueue) (record : String) :
    (QueueHandler.emit fmt queues record).length = queues.length ∧
    List.Forall₂
      (fun q q2 =>
        (q.isFull = true → q2 = q) ∧
        (q.isFull = false →
          q2 = { q with items := q.items ++ [fmt record] }))
      queues (QueueHandler.emit fmt queues record) := by
  constructor
  · simp [QueueHandler.emit]
  · induction queues with
    | nil => simp [QueueHandler.emit]
    | cons q rest ih =>
        refine List.Forall₂.cons ?_ ih
        constructor
        · intro hfull
          simp [AQueue.put_nowait, hfull]
        · intro hnot
          simp [AQueue.put_nowait, hnot]

theorem getKey_updateKey_self {α : Type} (m : List (String × α)) (k : String)
    (v : α) : getKey (updateKey m k v) k = some v := by
  induction m with
  | nil => simp [updateKey, getKey]
  | cons p rest ih =>
      by_cases h : p.1 = k <;> simp [updateKey, getKey, List.filter_cons, h]

/-! ## Theorems for C1..C4 -/

/-- Claim C1, code-bug evidence: at a concrete input where the max delay is
exceeded (schedule time 0, now 10000, `max_delay` 3600), `Apsis.__rerun`
logs "retry max delay exceeded" (`logged_max_delay = true`) yet still
schedules a rerun at `now + delay = 10060`, because the source lacks the
early return the spec requires. -/
theorem rerun_ignores_max_delay :
    rerunDecision ⟨"j", [], ⟨3, 60, 3600⟩⟩
      [⟨1, ⟨"j", []⟩, some 1, RunState.failure, [("schedule", 0)], [], none⟩]
      1 10000 = .ok ⟨true, some 10060⟩ := by
  rfl

/-- Claim C2 counterexample: with run 7 in `running_tasks`, a cancelled
supervision future leaves the entry in `running_tasks` — the callback's
early `return` on `CancelledError` skips the
`del self.__running_tasks[run.run_id]` statement, so the entry is not
removed as the claim states. -/
theorem cancelled_entry_not_removed :
    ((doneCallback ⟨[], [], [], [7], []⟩
        ⟨7, ⟨"j", []⟩, none, RunState.running, [], [], none⟩
        5 WaitOutcome.cancelled).1).running_tasks = [7] := by
  rfl

/-- Claim C2 as amended: when the supervision future is cancelled, the
completion callback does nothing at all: it persists no terminal transition,
leaves the run's durable and in-memory state untouched (so a running run
remains `running`), and also leaves the run's entry in `running_tasks` — the
early return skips the removal. -/
theorem cancelled_callback_is_noop (e : Engine) (r : Run) (t : Int) :
    doneCallback e r t WaitOutcome.cancelled = (e, r) :=
  rfl

/-- Claim C3 counterexample: on a run already in state `error` (with the
error time stamped at 1), a second `cancel` at time 2 changes the run's
state — it re-stamps the error time — rather than being the state-preserving
no-op returning `AlreadyTerminal` that the claim describes (no
`AlreadyTerminal` exists in the source). -/
theorem second_cancel_changes_state :
    (Apsis.cancel ⟨[], [], [], [], []⟩
        ⟨3, ⟨"j", []⟩, none, RunState.error, [("error", 1)], [],
          some "cancelled"⟩ 2).2 ≠
      ⟨3, ⟨"j", []⟩, none, RunState.error, [("error", 1)], [],
        some "cancelled"⟩ := by
  decide

/-- Claim C3 as amended: `cancel` checks no precondition.  For every run —
scheduled or not — it unschedules the run from the timed queue and
transitions it to `error` with message "cancelled", stamping the error time
and persisting a fresh snapshot; on a run already in `error` a second call
therefore repeats the transition (new error time, new persisted snapshot)
instead of changing nothing and returning `AlreadyTerminal`. -/
theorem cancel_always_transitions (e : Engine) (r : Run) (t : Int) :
    (Apsis.cancel e r t).2.state = RunState.error ∧
    (Apsis.cancel e r t).2.message = some "cancelled" ∧
    getKey (Apsis.cancel e r t).2.times "error" = some t ∧
    (Apsis.cancel e r t).1.scheduled =
      e.scheduled.filter (fun p => p.2 ≠ r.run_id) ∧
    (Apsis.cancel e r t).1.runs_db =
      e.runs_db.filter (fun p => p.1 ≠ r.run_id) ++
        [(r.run_id, (Apsis.cancel e r t).2)] := by
  refine ⟨rfl, rfl, ?_, rfl, rfl⟩
  simp [Apsis.cancel, Apsis.transition, Run.applyTransition, updateKeys,
    stateName, getKey_updateKey_self]

theorem famInv_failStep (job : Job) (x : Nat) (inst0 : Inst)
    (runs : List Run) (fid : Nat) (t : Int) (nid : Nat)
    (h : FamInv job x inst0 runs) :
    FamInv job x inst0 (failStep job runs fid t nid) := by
  obtain ⟨hlen, hmem⟩ := h
  cases hfind : runs.find? (fun r => r.run_id = fid) with
  | none =>
      unfold failStep
      rw [hfind]
      exact ⟨hlen, hmem⟩
  | some run =>
      have hrun : run ∈ runs := List.mem_of_find?_eq_some hfind
      have hfam : run.familyId = x := (hmem run hrun).1
      have hq : queryRerun runs run.familyId = runs := by
        rw [hfam]
        unfold queryRerun
        rw [List.filter_eq_self]
        intro r hr
        simpa using (hmem r hr).1
      have hred : failStep job runs fid t nid =
          match rerunDecision job (queryRerun runs run.familyId)
              run.familyId t with
          | Except.ok outcome =>
              match outcome.rerun_at with
              | some _ => runs ++ [engineRerun run nid]
              | none => runs
          | Except.error _ => runs := by
        unfold failStep
        rw [hfind]
      rw [hred, hq, hfam]
      unfold rerunDecision
      by_cases hc : job.reruns.count = 0
      · simp [hc]
        exact ⟨hlen, hmem⟩
      · simp [hc]
        by_cases hl : runs.length > job.reruns.count
        · simp [hl]
          exact ⟨hlen, hmem⟩
        · simp [hl]
          cases hfil : runs.filter (fun r => r.run_id = x) with
          | nil => exact ⟨hlen, hmem⟩
          | cons m rest =>
              cases rest with
              | nil =>
                  constructor
                  · simp only [List.length_append, List.length_cons,
                      List.length_nil]
                    omega
                  · intro r hr
                    rcases List.mem_append.mp hr with hr | hr
                    · exact hmem r hr
                    · have : r = engineRerun run nid := by simpa using hr
                      subst this
                      have hrr : (engineRerun run nid).rerun = some x := by
                        unfold engineRerun
                        cases hcase : run.rerun with
                        | none =>
                            simp only [Run.familyId, hcase,
                              Option.getD_none] at hfam
                            simp [hcase, hfam]
                        | some y =>
                            simp only [Run.familyId, hcase,
                              Option.getD_some] at hfam
                            simp [hcase, hfam]
                      refine ⟨?_, ?_, fun _ => hrr⟩
                      · simp [Run.familyId, hrr]
                      · unfold engineRerun
                        exact (hmem run hrun).2.1
              | cons m2 rest2 => exact ⟨hlen, hmem⟩

theorem famInv_runTrace (job : Job) (x : Nat) (inst0 : Inst)
    (runs : List Run) (events : List (Nat × Int × Nat))
    (h : FamInv job x inst0 runs) :
    FamInv job x inst0 (runTrace job runs events) := by
  induction events generalizing runs with
  | nil => exact h
  | cons ev rest ih =>
      obtain ⟨fid, t, nid⟩ := ev
      exact ih (failStep job runs fid t nid)
        (famInv_failStep job x inst0 runs fid t nid h)

/-- Claim C4: along any history of repeated failures starting from a single
original run (whose `rerun` is unset or points at itself), the rerun family
holds at most `policy.count + 1` runs in total, every run keeps the original
instance, every non-original member has `rerun = original.run_id`, and every
rerun that `Apsis.rerun` creates carries the `inst` of the run it reruns. -/
theorem rerun_family_bounded (job : Job) (orig : Run)
    (events : List (Nat × Int × Nat))
    (h : orig.rerun = none ∨ orig.rerun = some orig.run_id) :
    (runTrace job [orig] events).length ≤ job.reruns.count + 1 ∧
    (∀ r ∈ runTrace job [orig] events, r.inst = orig.inst) ∧
    (∀ r ∈ runTrace job [orig] events,
      r.run_id ≠ orig.run_id → r.rerun = some orig.run_id) ∧
    (∀ (run : Run) (fid : Nat), (engineRerun run fid).inst = run.inst) := by
  have hinit : FamInv job orig.run_id orig.inst [orig] := by
    refine ⟨by simp, ?_⟩
    intro r hr
    have : r = orig := by simpa using hr
    subst this
    refine ⟨?_, rfl, fun hne => absurd rfl hne⟩
    rcases h with h | h <;> simp [Run.familyId, h]
  obtain ⟨hlen, hmem⟩ :=
    famInv_runTrace job orig.run_id orig.inst [orig] events hinit
  refine ⟨hlen, ?_, ?_, ?_⟩
  · intro r hr
    exact (hmem r hr).2.1
  · intro r hr
    exact (hmem r hr).2.2
  · intro run fid
    rfl

/-- Witness for C4 at a concrete input: policy count 2, one original run,
three failure events; the hypothesis holds and the family stays within
`count + 1 = 3` runs. -/
theorem rerun_family_bounded_witness :
    (runTrace ⟨"j", [], ⟨2, 60, 3600⟩⟩
      [⟨1, ⟨"j", []⟩, none, RunState.failure, [("schedule", 0)], [], none⟩]
      [(1, 10, 2), (2, 20, 3), (3, 30, 4)]).length ≤ 2 + 1 :=
  (rerun_family_bounded ⟨"j", [], ⟨2, 60, 3600⟩⟩
    ⟨1, ⟨"j", []⟩, none, RunState.failure, [("schedule", 0)], [], none⟩
    [(1, 10, 2), (2, 20, 3), (3, 30, 4)] (Or.inl rfl)).1

/-! ## Theorems for C5, C6, C7 -/

/-- Claim C5 counterexample: `ShellCommandProgram` is not the `Process`
program over `["/bin/sh", "-c", cmd]` — at `cmd = "echo hi"` the spawned
child configurations differ (the source uses `/bin/bash`). -/
theorem shellCommand_differs_from_sh_process :
    ((ShellCommandProgram "echo hi").start ⟨"h", "u", "t"⟩ ⟨[], none⟩
        true).2.toOption.map SpawnConfig.argv ≠
    ((shellCommandSpec "echo hi").start ⟨"h", "u", "t"⟩ ⟨[], none⟩
        true).2.toOption.map SpawnConfig.argv := by
  decide

/-- Claim C5 as amended: a `ShellCommandProgram` built from shell string
`cmd` is behaviourally identical to a `ProcessProgram` constructed with the
argv vector `["/bin/bash", "-c", cmd]`: the two programs are the same record,
so `start` spawns the identical child in every environment (and `wait` is the
inherited `ProcessProgram.wait`, shared verbatim). -/
theorem shellCommand_is_bash_process (cmd : String) (env : HostEnv)
    (run : ProgRun) (spawnOk : Bool) :
    ShellCommandProgram cmd = ProcessProgram.ofArgv ["/bin/bash", "-c", cmd] ∧
    (ShellCommandProgram cmd).start env run spawnOk =
      (ProcessProgram.ofArgv ["/bin/bash", "-c", cmd]).start env run spawnOk :=
  ⟨rfl, rfl⟩

/-- Claim C6: the child's stdin is `/dev/null`, its stdout and stderr are
merged and captured into a single output blob, waiting returns success
exactly when the exit code is 0, and any nonzero exit code raises
`ProgramFailure`. -/
theorem process_execution_contract (p : ProcessProgram) (env : HostEnv)
    (run : ProgRun) (pid returnCode : Int) (stdout endTime : String) :
    ((p.start env run true).2 =
      .ok { argv := p.argv, executable := p.executable,
            stdin := "/dev/null", stdoutIsPipe := true,
            stderrToStdout := true }) ∧
    ((ProcessProgram.wait run pid returnCode stdout endTime).2 = .ok () ↔
      returnCode = 0) ∧
    ((ProcessProgram.wait run pid returnCode stdout endTime).2 =
      if returnCode = 0 then .ok ()
      else .error ⟨"return code = " ++ toString returnCode⟩) ∧
    ((ProcessProgram.wait run pid returnCode stdout endTime).1.output =
      some stdout) := by
  refine ⟨rfl, ?_, rfl, rfl⟩
  unfold ProcessProgram.wait
  by_cases h : returnCode = 0 <;> simp [h]

/-- Claim C7 counterexample: after a successful `start` on a run with empty
meta, `run.meta` has no `pid` entry — `pid` is only recorded later by
`wait`. -/
theorem start_does_not_record_pid :
    hasKey ((ProcessProgram.ofArgv ["/bin/ls"]).start ⟨"h", "u", "t"⟩
      ⟨[], none⟩ true).1.meta "pid" = false := by
  decide

/-- Claim C7 as amended: when `start(run)` returns, `run.meta` contains
entries for hostname, username and start_time; it leaves the presence of a
`pid` entry unchanged — `pid` (with return_code and end_time) is recorded by
`wait`. -/
theorem start_records_host_user_time (p : ProcessProgram) (env : HostEnv)
    (run : ProgRun) (spawnOk : Bool) (pid returnCode : Int)
    (stdout endTime : String) :
    hasKey (p.start env run spawnOk).1.meta "hostname" = true ∧
    hasKey (p.start env run spawnOk).1.meta "username" = true ∧
    hasKey (p.start env run spawnOk).1.meta "start_time" = true ∧
    hasKey (p.start env run spawnOk).1.meta "pid" = hasKey run.meta "pid" ∧
    hasKey (ProcessProgram.wait run pid returnCode stdout
      endTime).1.meta "pid" = true := by
  refine ⟨?_, ?_, ?_, ?_, ?_⟩ <;>
    simp [ProcessProgram.start, ProcessProgram.wait, updateKeys,
      hasKey_updateKey]

/-! ## Theorems for C9 -/

theorem bindGet_isOk_iff (job : Job)
    (o i b : List (String × String)) (n : String) :
    (∃ v, bindGet job o i b n = .ok v) ↔
      (getKey o n).isSome ∨ (getKey i n).isSome := by
  unfold bindGet
  cases getKey o n with
  | some v => simp
  | none => cases getKey i n with
    | some v => simp
    | none => simp

theorem bindGet_ok_provenance (job : Job)
    (o i b : List (String × String)) (n v : String)
    (h : bindGet job o i b n = .ok v) :
    (∃ t, getKey o n = some t ∧ v = template_expand t b) ∨
      (getKey o n = none ∧ getKey i n = some v) := by
  unfold bindGet at h
  cases ho : getKey o n with
  | some t =>
      rw [ho] at h
      simp at h
      exact Or.inl ⟨t, rfl, h.symm⟩
  | none =>
      rw [ho] at h
      cases hi : getKey i n with
      | some w =>
          rw [hi] at h
          simp at h
          exact Or.inr ⟨rfl, by rw [h]⟩
      | none =>
          rw [hi] at h
          simp at h

theorem bindParams_ok_shape (job : Job) (o i b : List (String × String))
    (ps : List String) (m : List (String × String))
    (h : bindParams job o i b ps = .ok m) :
    m.map Prod.fst = ps ∧
      ∀ n v, (n, v) ∈ m → bindGet job o i b n = .ok v := by
  induction ps generalizing m with
  | nil =>
      simp [bindParams] at h
      subst h
      simp
  | cons n rest ih =>
      unfold bindParams at h
      cases hg : bindGet job o i b n with
      | error e => rw [hg] at h; simp [Bind.bind, Except.bind] at h
      | ok v =>
          rw [hg] at h
          cases hp : bindParams job o i b rest with
          | error e => rw [hp] at h; simp [Bind.bind, Except.bind] at h
          | ok m2 =>
              rw [hp] at h
              simp [Bind.bind, Except.bind] at h
              subst h
              obtain ⟨hmap, hmem⟩ := ih m2 hp
              refine ⟨by simp [hmap], ?_⟩
              intro n2 v2 hm
              rcases List.mem_cons.mp hm with hm | hm
              · simp at hm
                obtain ⟨rfl, rfl⟩ := hm
                exact hg
              · exact hmem n2 v2 hm

theorem bindParams_ok_iff (job : Job) (o i b : List (String × String))
    (ps : List String) :
    (∃ m, bindParams job o i b ps = .ok m) ↔
      ∀ n ∈ ps, (getKey o n).isSome ∨ (getKey i n).isSome := by
  induction ps with
  | nil => simp [bindParams]
  | cons n rest ih =>
      constructor
      · rintro ⟨m, hm⟩
        unfold bindParams at hm
        cases hg : bindGet job o i b n with
        | error e => rw [hg] at hm; simp [Bind.bind, Except.bind] at hm
        | ok v =>
            rw [hg] at hm
            cases hp : bindParams job o i b rest with
            | error e => rw [hp] at hm; simp [Bind.bind, Except.bind] at hm
            | ok m2 =>
                intro n2 hn2
                rcases List.mem_cons.mp hn2 with rfl | hn2
                · exact (bindGet_isOk_iff job o i b n2).mp ⟨v, hg⟩
                · exact (ih.mp ⟨m2, hp⟩) n2 hn2
      · intro hall
        obtain ⟨v, hg⟩ := (bindGet_isOk_iff job o i b n).mpr
          (hall n (List.mem_cons_self n rest))
        obtain ⟨m2, hp⟩ := ih.mpr (fun n2 hn2 =>
          hall n2 (List.mem_cons_of_mem n hn2))
        refine ⟨(n, v) :: m2, ?_⟩
        unfold bindParams
        rw [hg, hp]
        rfl

/-- Claim C9: `_bind(job, obj_args, inst_args, bind_args)` returns a mapping
whose key list is exactly `job.params`; each bound value comes from
`obj_args` template-expanded with `bind_args` when the parameter is present
there, otherwise from `inst_args` unexpanded; it succeeds exactly when every
parameter is in one of the two mappings, and raises `LookupError`
otherwise. -/
theorem bind_binds_exactly_params (job : Job)
    (o i b : List (String × String)) :
    (∀ m, _bind job o i b = .ok m →
      m.map Prod.fst = job.params ∧
      ∀ n v, (n, v) ∈ m →
        (∃ t, getKey o n = some t ∧ v = template_expand t b) ∨
          (getKey o n = none ∧ getKey i n = some v)) ∧
    ((∃ m, _bind job o i b = .ok m) ↔
      ∀ n ∈ job.params, (getKey o n).isSome ∨ (getKey i n).isSome) ∧
    ((∃ n ∈ job.params, getKey o n = none ∧ getKey i n = none) →
      ∃ e, _bind job o i b = .error e) := by
  refine ⟨?_, bindParams_ok_iff job o i b job.params, ?_⟩
  · intro m hm
    obtain ⟨hmap, hmem⟩ := bindParams_ok_shape job o i b job.params m hm
    exact ⟨hmap, fun n v hnv =>
      bindGet_ok_provenance job o i b n v (hmem n v hnv)⟩
  · rintro ⟨n, hn, ho, hi⟩
    cases hb : _bind job o i b with
    | error e => exact ⟨e, rfl⟩
    | ok m =>
        exfalso
        have := (bindParams_ok_iff job o i b job.params).mp ⟨m, hb⟩ n hn
        rw [ho, hi] at this
        simp at this

/-- Witness for C9 at a concrete input: both parameters are bound from
`inst_args` (empty `obj_args`), and the key list of the result is exactly
the job's parameter list. -/
theorem bind_binds_exactly_params_witness :
    List.map Prod.fst [("a", "x"), ("b", "y")] = ["a", "b"] :=
  ((bind_binds_exactly_params ⟨"j", ["a", "b"], ⟨0, 0, 0⟩⟩ []
      [("a", "x"), ("b", "y")] []).1
    [("a", "x"), ("b", "y")] rfl).1

end Apsis
